import Mathlib

/-!
Shallow embedding of the metrics-aggregation code of `dev-prod-report`
(`src/index.js`): the bounded-range metrics pass `calculatePRMetrics`,
the rolling-week aggregation and contributor ranking of
`generateWeeklyPRReport`, the per-PR detail batch `fetchPRDetails`,
and the average-time rendering guards of `generateReport` and the
weekly table rows.

Timestamps are modelled as integers (milliseconds since epoch, the value
moment.js works with).  `moment(a).diff(b, 'hours', true)` is the exact
rational difference divided by 3 600 000; `moment(a).diff(b, 'hours')`
truncates that quotient toward zero (moment's `absFloor`), which is
`Int.tdiv` on integer millisecond differences.  JavaScript objects keyed
by contributor login and `Map`s keyed by PR number are modelled as
insertion-ordered association lists with unique keys, which is exactly
their observable behaviour (`updateAssoc` = read-modify-write of one slot,
creating it at the end on first use; `mapSet` = `Map.prototype.set`).
-/

/-- One GitHub pull request as observed at fetch time (fields of the REST
payload that `src/index.js` reads, plus the `repoName` tag added by
`fetchPRs`). -/
structure PR where
  number : Nat
  repoName : String
  author : String
  state : String
  created_at : Int
  merged_at : Option Int
  closed_at : Option Int
  updated_at : Int
deriving Repr, DecidableEq

/-- Per-PR review/comment counts produced by `fetchPRDetails`
(src/index.js lines 103-110). -/
structure PRDetail where
  totalComments : Nat
  reviewComments : Nat
  discussionComments : Nat
  reviews : Nat
  approvals : Nat
  changesRequested : Nat
deriving Repr, DecidableEq

/-- The zero record stored for a PR whose detail fetch failed
(src/index.js lines 113-120). -/
def zeroDetail : PRDetail :=
  { totalComments := 0, reviewComments := 0, discussionComments := 0,
    reviews := 0, approvals := 0, changesRequested := 0 }

/-- Raw data the three per-PR sub-fetches return: discussion comments,
review comments (only their counts are consumed) and review states. -/
structure RawPRData where
  comments : List String
  reviewComments : List String
  reviews : List String
deriving Repr, DecidableEq

/-- Reduction of one PR's raw data into counts
(src/index.js lines 97-110). -/
def computeDetail (raw : RawPRData) : PRDetail :=
  let discussionComments := raw.comments.length
  let reviewCommentsCount := raw.reviewComments.length
  { totalComments := discussionComments + reviewCommentsCount
    reviewComments := reviewCommentsCount
    discussionComments := discussionComments
    reviews := raw.reviews.length
    approvals := (raw.reviews.filter (fun st => st = "APPROVED")).length
    changesRequested := (raw.reviews.filter (fun st => st = "CHANGES_REQUESTED")).length }

/-- What one iteration of `fetchPRDetails` stores for PR number `n`:
the computed counts on success, the zero record when the fetch for that
PR failed (the catch block, src/index.js lines 111-121).  The fetch
capability is a function `Nat → Option RawPRData`; `none` models the
thrown error. -/
def detailFor (fetch : Nat → Option RawPRData) (n : Nat) : PRDetail :=
  match fetch n with
  | some raw => computeDetail raw
  | none => zeroDetail

/-- Association-list lookup; models `Map.prototype.get` /
JavaScript-object property read. -/
def mapGet {κ β : Type} [DecidableEq κ] (m : List (κ × β)) (k : κ) : Option β :=
  (m.find? (fun p => decide (p.1 = k))).map (fun p => p.2)

/-- Association-list write; models `Map.prototype.set`: overwrite in
place when the key exists, append otherwise. -/
def mapSet {κ β : Type} [DecidableEq κ] (m : List (κ × β)) (k : κ) (v : β) :
    List (κ × β) :=
  match m with
  | [] => [(k, v)]
  | (k', v') :: rest => if k' = k then (k, v) :: rest else (k', v') :: mapSet rest k v

/-- Read-modify-write of one slot of a JavaScript object / `Map`:
`m[k] = f(m[k] ?? d)`, creating the slot at the end on first use.
Models the `if (!metrics.contributors[c]) metrics.contributors[c] = ...`
followed by field mutations pattern of src/index.js. -/
def updateAssoc {κ β : Type} [DecidableEq κ] (m : List (κ × β)) (k : κ) (d : β)
    (f : β → β) : List (κ × β) :=
  match m with
  | [] => [(k, f d)]
  | (k', v') :: rest =>
    if k' = k then (k, f v') :: rest else (k', v') :: updateAssoc rest k d f

/-- Batch detail fetch (src/index.js lines 74-125): one entry per
requested PR number; a failed fetch is absorbed into the zero record for
that number only. -/
def fetchPRDetails (fetch : Nat → Option RawPRData) (prNumbers : List Nat) :
    List (Nat × PRDetail) :=
  prNumbers.foldl (fun details n => mapSet details n (detailFor fetch n)) []

/-- Exact fractional hour difference:
`moment(x).diff(y, 'hours', true)` on millisecond timestamps. -/
def fracHours (d : Int) : ℚ := (d : ℚ) / 3600000

/-- Whole-hour difference truncated toward zero:
`moment(x).diff(y, 'hours')` (moment's `absFloor` of the quotient). -/
def truncHours (d : Int) : Int := Int.tdiv d 3600000

/-- Per-contributor record of the bounded-range pass
(src/index.js lines 155-160). -/
structure ContribStats where
  newPRs : Nat
  mergedPRs : Nat
  openPRs : Nat
  comments : Nat
deriving Repr, DecidableEq

/-- Fresh per-contributor record (src/index.js lines 155-160). -/
def zeroStats : ContribStats :=
  { newPRs := 0, mergedPRs := 0, openPRs := 0, comments := 0 }

/-- Accumulator state of `calculatePRMetrics`' loop: the `metrics`
object's counters plus the four local accumulator variables
(src/index.js lines 134-146). -/
structure BoundedState where
  newPRs : Nat
  mergedPRs : Nat
  openPRs : Nat
  contributors : List (String × ContribStats)
  totalMergeTime : ℚ
  totalFirstReviewTime : ℚ
  mergedCount : Nat
  reviewedCount : Nat
deriving Repr, DecidableEq

/-- Initial accumulator (src/index.js lines 134-146). -/
def initialBoundedState : BoundedState :=
  { newPRs := 0, mergedPRs := 0, openPRs := 0, contributors := [],
    totalMergeTime := 0, totalFirstReviewTime := 0,
    mergedCount := 0, reviewedCount := 0 }

/-- Mutations applied to the contributor's record for one in-range PR, in
source order (src/index.js lines 163-187): `newPRs++`; then `openPRs++`
if the PR is open, else `mergedPRs++` if a merged timestamp is present;
then `comments = details.totalComments` when a detail record exists
(assignment, not accumulation). -/
def updStats (pr : PR) (d : Option PRDetail) (c : ContribStats) : ContribStats :=
  let c := { c with newPRs := c.newPRs + 1 }
  let c :=
    if pr.state = "open" then { c with openPRs := c.openPRs + 1 }
    else match pr.merged_at with
      | some _ => { c with mergedPRs := c.mergedPRs + 1 }
      | none => c
  match d with
  | some det => { c with comments := det.totalComments }
  | none => c

/-- Contribution of one in-range PR to the global `mergedPRs` counter and
merge-time sample count (src/index.js lines 165-175: the `else if
(pr.merged_at)` branch, reached only when the PR is not open). -/
def mergedInc (pr : PR) : Nat :=
  if pr.state = "open" then 0
  else match pr.merged_at with
    | some _ => 1
    | none => 0

/-- Contribution of one in-range PR to the global merge-time total
(src/index.js line 172: fractional hours, not truncated). -/
def mergedTimeInc (pr : PR) : ℚ :=
  if pr.state = "open" then 0
  else match pr.merged_at with
    | some mt => fracHours (mt - pr.created_at)
    | none => 0

/-- Contribution of one in-range PR to the first-review sample count
(src/index.js lines 181-186). -/
def reviewedInc (d : Option PRDetail) : Nat :=
  match d with
  | some det => if 0 < det.reviews then 1 else 0
  | none => 0

/-- Contribution of one in-range PR to the first-review time total
(src/index.js lines 182-184: the mock first review is creation plus two
hours). -/
def reviewTimeInc (pr : PR) (d : Option PRDetail) : ℚ :=
  match d with
  | some det =>
    if 0 < det.reviews then fracHours ((pr.created_at + 2 * 3600000) - pr.created_at)
    else 0
  | none => 0

/-- One iteration of the `for (const pr of prs)` loop of
`calculatePRMetrics` (src/index.js lines 148-189).  The guard is
`created.isBetween(start, end, null, '[]')`, the inclusive range test
`start ≤ created ≤ end`; a PR failing it changes nothing. -/
def boundedStep (prDetails : List (Nat × PRDetail)) (startDate endDate : Int)
    (st : BoundedState) (pr : PR) : BoundedState :=
  if startDate ≤ pr.created_at ∧ pr.created_at ≤ endDate then
    let d := mapGet prDetails pr.number
    { newPRs := st.newPRs + 1
      contributors := updateAssoc st.contributors pr.author zeroStats (updStats pr d)
      openPRs := st.openPRs + (if pr.state = "open" then 1 else 0)
      mergedPRs := st.mergedPRs + mergedInc pr
      totalMergeTime := st.totalMergeTime + mergedTimeInc pr
      mergedCount := st.mergedCount + mergedInc pr
      totalFirstReviewTime := st.totalFirstReviewTime + reviewTimeInc pr d
      reviewedCount := st.reviewedCount + reviewedInc d }
  else st

/-- The whole loop of `calculatePRMetrics`, as a fold over the fetched
PRs (src/index.js lines 148-189). -/
def calculatePRMetricsState (prs : List PR) (prDetails : List (Nat × PRDetail))
    (startDate endDate : Int) : BoundedState :=
  prs.foldl (boundedStep prDetails startDate endDate) initialBoundedState

/-- The metrics object returned by `calculatePRMetrics`
(src/index.js lines 134-141 and 191-194). -/
structure Metrics where
  newPRs : Nat
  mergedPRs : Nat
  openPRs : Nat
  avgTimeToMerge : ℚ
  avgTimeToFirstReview : ℚ
  contributors : List (String × ContribStats)
deriving Repr, DecidableEq

/-- `calculatePRMetrics` (src/index.js lines 128-195), with the fetched
PR list and the detail map as parameters (the two `await`ed fetches of
lines 129 and 132).  The averages divide only under the `count > 0`
guards of lines 191-192, else both are `0`. -/
def calculatePRMetrics (prs : List PR) (prDetails : List (Nat × PRDetail))
    (startDate endDate : Int) : Metrics :=
  let st := calculatePRMetricsState prs prDetails startDate endDate
  { newPRs := st.newPRs
    mergedPRs := st.mergedPRs
    openPRs := st.openPRs
    avgTimeToMerge :=
      if 0 < st.mergedCount then st.totalMergeTime / (st.mergedCount : ℚ) else 0
    avgTimeToFirstReview :=
      if 0 < st.reviewedCount then st.totalFirstReviewTime / (st.reviewedCount : ℚ) else 0
    contributors := st.contributors }

/-- Model of JavaScript `Number.prototype.toFixed(1)` on a rational:
one-decimal rendering (float rounding artefacts are not modelled; no
claim depends on the nonzero branch's digits). -/
def toFixed1 (q : ℚ) : String :=
  let n : Int := round (q * 10)
  toString (n / 10) ++ "." ++ toString (n % 10).natAbs

/-- The Average-Time-to-Merge summary bullet value of `generateReport`
(src/index.js line 207): the literal string `N/A` when the stored
average is exactly zero, else the one-decimal hours text. -/
def avgTimeToMergeDisplay (m : Metrics) : String :=
  if m.avgTimeToMerge = 0 then "N/A" else toFixed1 m.avgTimeToMerge ++ " hours"

/-- Per-contributor record of the rolling-week aggregation
(src/index.js lines 264-272). -/
structure RollStats where
  newPRsThisWeek : Nat
  mergedPRsThisWeek : Nat
  openPRs : Nat
  closedPRsThisWeek : Nat
  totalComments : Nat
  mergedPRCount : Nat
  totalMergeTime : ℚ
deriving Repr, DecidableEq

/-- Fresh rolling-week record (src/index.js lines 264-272). -/
def zeroRollStats : RollStats :=
  { newPRsThisWeek := 0, mergedPRsThisWeek := 0, openPRs := 0,
    closedPRsThisWeek := 0, totalComments := 0, mergedPRCount := 0,
    totalMergeTime := 0 }

/-- Mutations applied to a contributor's rolling-week record for one PR,
in source order (src/index.js lines 277-299): `newPRsThisWeek++` when
created strictly after the window start (`isAfter`); then the exclusive
open / merged-this-week / closed-this-week chain; then `totalComments`
accumulated (summed) from the PR's detail when present.  In the merged
branch the merge time is `mergedAt.diff(createdAt, 'hours')` — the
whole-hour difference truncated toward zero.  The third branch requires
`!pr.merged_at`, so a PR with a merged timestamp not after the window
start falls through unchanged. -/
def updRollStats (lastWeekDate : Int) (d : Option PRDetail) (pr : PR)
    (r : RollStats) : RollStats :=
  let r :=
    if lastWeekDate < pr.created_at then
      { r with newPRsThisWeek := r.newPRsThisWeek + 1 }
    else r
  let r :=
    if pr.state = "open" then { r with openPRs := r.openPRs + 1 }
    else match pr.merged_at with
      | some mt =>
        if lastWeekDate < mt then
          { r with mergedPRsThisWeek := r.mergedPRsThisWeek + 1
                   totalMergeTime := r.totalMergeTime + ((truncHours (mt - pr.created_at) : Int) : ℚ)
                   mergedPRCount := r.mergedPRCount + 1 }
        else r
      | none =>
        match pr.closed_at with
        | some ct =>
          if lastWeekDate < ct then
            { r with closedPRsThisWeek := r.closedPRsThisWeek + 1 }
          else r
        | none => r
  match d with
  | some det => { r with totalComments := r.totalComments + det.totalComments }
  | none => r

/-- One iteration of the `for (const pr of allPRs)` loop of
`generateWeeklyPRReport` (src/index.js lines 257-300): ensure the
author's record exists, then apply `updRollStats` to it.  The PR's
detail is looked up in the per-repository detail map. -/
def rollingStep (lastWeekDate : Int)
    (prDetailsByRepo : String → Option (List (Nat × PRDetail)))
    (m : List (String × RollStats)) (pr : PR) : List (String × RollStats) :=
  let d :=
    match prDetailsByRepo pr.repoName with
    | some repoDetails => mapGet repoDetails pr.number
    | none => none
  updateAssoc m pr.author zeroRollStats (updRollStats lastWeekDate d pr)

/-- The full rolling-week aggregation: `contributorMetrics` after the
loop of src/index.js lines 257-300, starting from the empty map. -/
def contributorMetrics (lastWeekDate : Int)
    (prDetailsByRepo : String → Option (List (Nat × PRDetail)))
    (allPRs : List PR) : List (String × RollStats) :=
  allPRs.foldl (rollingStep lastWeekDate prDetailsByRepo) []

/-- The three-way comparator of the contributor sort
(src/index.js lines 325-336). -/
def rollCmp (a b : RollStats) : Int :=
  if a.mergedPRsThisWeek ≠ b.mergedPRsThisWeek then
    (b.mergedPRsThisWeek : Int) - (a.mergedPRsThisWeek : Int)
  else if a.newPRsThisWeek ≠ b.newPRsThisWeek then
    (b.newPRsThisWeek : Int) - (a.newPRsThisWeek : Int)
  else (b.openPRs : Int) - (a.openPRs : Int)

/-- Keep-before relation induced by the comparator: `a` may stay before
`b` exactly when `rollCmp a b ≤ 0`.  A stable sort with this relation is
the observable behaviour of `Array.prototype.sort` with a consistent
comparator. -/
def rollLE (a b : String × RollStats) : Bool := decide (rollCmp a.2 b.2 ≤ 0)

/-- The contributor ranking of src/index.js lines 324-336:
`Array.prototype.sort` is a stable sort, modelled by `List.mergeSort`. -/
def sortContributors (m : List (String × RollStats)) :
    List (String × RollStats) :=
  m.mergeSort rollLE

/-- The Avg-Time-to-Merge cell of a weekly table row
(src/index.js lines 340-342): the division happens only under the
`mergedPRCount > 0` guard, else the literal string `0.0`. -/
def rollingAvgTimeToMergeDisplay (r : RollStats) : String :=
  if 0 < r.mergedPRCount then toFixed1 (r.totalMergeTime / (r.mergedPRCount : ℚ))
  else "0.0"

/-- Descending lexicographic key order the ranking is meant to realise:
strictly more merged PRs this week, or equal merged and strictly more
new PRs, or both equal and at least as many open PRs. -/
def rollKeyGE (a b : RollStats) : Prop :=
  b.mergedPRsThisWeek < a.mergedPRsThisWeek ∨
    (a.mergedPRsThisWeek = b.mergedPRsThisWeek ∧
      (b.newPRsThisWeek < a.newPRsThisWeek ∨
        (a.newPRsThisWeek = b.newPRsThisWeek ∧ b.openPRs ≤ a.openPRs)))

instance (a b : RollStats) : Decidable (rollKeyGE a b) := by
  unfold rollKeyGE; infer_instance

/-! ### Lemmas about the association-list model of objects and Maps -/

lemma mapGet_nil {κ β : Type} [DecidableEq κ] (j : κ) :
    mapGet ([] : List (κ × β)) j = none := rfl

lemma mapGet_cons {κ β : Type} [DecidableEq κ] (k : κ) (v : β)
    (rest : List (κ × β)) (j : κ) :
    mapGet ((k, v) :: rest) j = if k = j then some v else mapGet rest j := by
  by_cases h : k = j <;> simp [mapGet, List.find?_cons, h]

lemma mapGet_updateAssoc {κ β : Type} [DecidableEq κ] (m : List (κ × β))
    (k j : κ) (d : β) (f : β → β) :
    mapGet (updateAssoc m k d f) j =
      if j = k then some (f ((mapGet m k).getD d)) else mapGet m j := by
  induction m with
  | nil =>
    by_cases h : j = k
    · subst h; simp [updateAssoc, mapGet_cons, mapGet_nil]
    · simp [updateAssoc, mapGet_cons, mapGet_nil, h, Ne.symm h]
  | cons p rest ih =>
    obtain ⟨k', v'⟩ := p
    by_cases hk : k' = k
    · subst hk
      by_cases h : j = k'
      · subst h; simp [updateAssoc, mapGet_cons]
      · simp [updateAssoc, mapGet_cons, h, Ne.symm h]
    · by_cases h : k' = j
      · subst h
        simp [updateAssoc, hk, mapGet_cons, fun hh : k' = k => hk hh]
      · simp [updateAssoc, hk, mapGet_cons, h, ih]

lemma mapGet_mapSet {κ β : Type} [DecidableEq κ] (m : List (κ × β))
    (k j : κ) (v : β) :
    mapGet (mapSet m k v) j = if j = k then some v else mapGet m j := by
  induction m with
  | nil =>
    by_cases h : j = k
    · subst h; simp [mapSet, mapGet_cons, mapGet_nil]
    · simp [mapSet, mapGet_cons, mapGet_nil, h, Ne.symm h]
  | cons p rest ih =>
    obtain ⟨k', v'⟩ := p
    by_cases hk : k' = k
    · subst hk
      by_cases h : j = k'
      · subst h; simp [mapSet, mapGet_cons]
      · simp [mapSet, mapGet_cons, h, Ne.symm h]
    · by_cases h : k' = j
      · subst h
        simp [mapSet, hk, mapGet_cons]
      · simp [mapSet, hk, mapGet_cons, h, ih]

lemma mem_updateAssoc {κ β : Type} [DecidableEq κ] {P : β → Prop}
    (m : List (κ × β)) (k : κ) (d : β) (f : β → β)
    (hm : ∀ p ∈ m, P p.2) (hd : P (f d)) (hf : ∀ v, P v → P (f v)) :
    ∀ p ∈ updateAssoc m k d f, P p.2 := by
  induction m with
  | nil =>
    intro p hp
    simp [updateAssoc] at hp
    subst hp; exact hd
  | cons q rest ih =>
    obtain ⟨k', v'⟩ := q
    intro p hp
    by_cases hk : k' = k
    · subst hk
      simp [updateAssoc] at hp
      rcases hp with h | h
      · subst h; exact hf v' (hm (k', v') (by simp))
      · exact hm p (by simp [h])
    · simp [updateAssoc, hk] at hp
      rcases hp with h | h
      · subst h; exact hm (k', v') (by simp)
      · exact ih (fun q hq => hm q (by simp [hq])) p h

lemma sum_updateAssoc {κ β : Type} [DecidableEq κ] (m : List (κ × β))
    (k : κ) (d : β) (f : β → β) (g : β → Nat) (c : Nat)
    (hf : ∀ v, g (f v) = g v + c) (hd : g d = 0) :
    ((updateAssoc m k d f).map (fun p => g p.2)).sum
      = (m.map (fun p => g p.2)).sum + c := by
  induction m with
  | nil => simp [updateAssoc, hf, hd]
  | cons q rest ih =>
    obtain ⟨k', v'⟩ := q
    by_cases hk : k' = k
    · subst hk
      simp [updateAssoc, hf]
      omega
    · simp [updateAssoc, hk, ih]
      omega

lemma mapSet_of_absent {κ β : Type} [DecidableEq κ] (m : List (κ × β)) (k : κ)
    (v : β) (h : mapGet m k = none) : mapSet m k v = m ++ [(k, v)] := by
  induction m with
  | nil => simp [mapSet]
  | cons p rest ih =>
    obtain ⟨k', v'⟩ := p
    rw [mapGet_cons] at h
    by_cases hk : k' = k
    · simp [hk] at h
    · simp only [hk, if_false] at h
      simp [mapSet, hk, ih h]

lemma foldl_mapSet_keys (fetch : Nat → Option RawPRData) :
    ∀ (nums : List Nat) (acc : List (Nat × PRDetail)),
      (∀ n ∈ nums, mapGet acc n = none) → nums.Nodup →
      ((nums.foldl (fun m n => mapSet m n (detailFor fetch n)) acc).map Prod.fst)
        = acc.map Prod.fst ++ nums := by
  intro nums
  induction nums with
  | nil => intro acc _ _; simp
  | cons n rest ih =>
    intro acc habs hnd
    have hn : mapGet acc n = none := habs n (by simp)
    have habs' : ∀ j ∈ rest, mapGet (mapSet acc n (detailFor fetch n)) j = none := by
      intro j hj
      have hne : j ≠ n := by
        rintro rfl
        exact (List.nodup_cons.mp hnd).1 hj
      rw [mapGet_mapSet]
      simp [hne, habs j (by simp [hj])]
    rw [List.foldl_cons, ih (mapSet acc n (detailFor fetch n)) habs'
      (List.nodup_cons.mp hnd).2]
    rw [mapSet_of_absent acc n _ hn]
    simp

lemma foldl_mapSet_not_mem (fetch : Nat → Option RawPRData) :
    ∀ (nums : List Nat) (acc : List (Nat × PRDetail)) (n : Nat), n ∉ nums →
      mapGet (nums.foldl (fun m j => mapSet m j (detailFor fetch j)) acc) n
        = mapGet acc n := by
  intro nums
  induction nums with
  | nil => intro acc n _; rfl
  | cons j rest ih =>
    intro acc n hn
    have hne : n ≠ j := fun h => hn (by simp [h])
    rw [List.foldl_cons, ih _ n (fun h => hn (by simp [h]))]
    rw [mapGet_mapSet]
    simp [hne]

lemma foldl_mapSet_mem (fetch : Nat → Option RawPRData) :
    ∀ (nums : List Nat) (acc : List (Nat × PRDetail)) (n : Nat), n ∈ nums →
      nums.Nodup →
      mapGet (nums.foldl (fun m j => mapSet m j (detailFor fetch j)) acc) n
        = some (detailFor fetch n) := by
  intro nums
  induction nums with
  | nil => intro acc n hn; exact absurd hn (by simp)
  | cons j rest ih =>
    intro acc n hn hnd
    rw [List.foldl_cons]
    by_cases h : n = j
    · subst h
      rw [foldl_mapSet_not_mem fetch rest _ n (List.nodup_cons.mp hnd).1]
      rw [mapGet_mapSet]
      simp
    · have hr : n ∈ rest := by
        rcases List.mem_cons.mp hn with h' | h'
        · exact absurd h' h
        · exact h'
      exact ih _ n hr (List.nodup_cons.mp hnd).2

/-- C8: for every call `fetchPRDetails(repository, prNumbers)` (over
distinct requested numbers), the returned mapping has exactly one entry
per requested number, in request order; each number's entry is a
function of that number's own fetch outcome alone, so one PR's fetch
failure yields the all-zero record for that PR only, with every sibling
entry equal to its own computed record; the function is total (never
throws). -/
theorem fetchPRDetails_isolates_failures (fetch : Nat → Option RawPRData)
    (prNumbers : List Nat) (hnd : prNumbers.Nodup) :
    ((fetchPRDetails fetch prNumbers).map Prod.fst = prNumbers) ∧
    (∀ n ∈ prNumbers,
      mapGet (fetchPRDetails fetch prNumbers) n = some (detailFor fetch n)) ∧
    (∀ n ∈ prNumbers, fetch n = none →
      mapGet (fetchPRDetails fetch prNumbers) n =
        some { totalComments := 0, reviewComments := 0, discussionComments := 0,
               reviews := 0, approvals := 0, changesRequested := 0 }) ∧
    (∀ n ∈ prNumbers, ∀ raw, fetch n = some raw →
      mapGet (fetchPRDetails fetch prNumbers) n = some (computeDetail raw)) := by
  refine ⟨?_, ?_, ?_, ?_⟩
  · have h := foldl_mapSet_keys fetch prNumbers [] (by intro n _; rfl) hnd
    simpa [fetchPRDetails] using h
  · intro n hn
    exact foldl_mapSet_mem fetch prNumbers [] n hn hnd
  · intro n hn hfail
    unfold fetchPRDetails
    rw [foldl_mapSet_mem fetch prNumbers [] n hn hnd]
    simp [detailFor, hfail, zeroDetail]
  · intro n hn raw hok
    unfold fetchPRDetails
    rw [foldl_mapSet_mem fetch prNumbers [] n hn hnd]
    simp [detailFor, hok]

/-- Concrete fetch capability for the C8 witness: the detail fetch for
PR number 123 fails, the one for PR number 7 succeeds. -/
def witnessFetch : Nat → Option RawPRData := fun n =>
  if n = 123 then none
  else some { comments := ["lgtm"], reviewComments := [], reviews := ["APPROVED"] }

/-- Witness for C8 at the concrete batch `[7, 123]`: the failed PR 123
maps to the zero record while PR 7 keeps its own computed record. -/
theorem fetchPRDetails_isolates_failures_witness :
    mapGet (fetchPRDetails witnessFetch [7, 123]) 123 =
      some { totalComments := 0, reviewComments := 0, discussionComments := 0,
             reviews := 0, approvals := 0, changesRequested := 0 } ∧
    mapGet (fetchPRDetails witnessFetch [7, 123]) 7 =
      some (computeDetail { comments := ["lgtm"], reviewComments := [],
                            reviews := ["APPROVED"] }) ∧
    (fetchPRDetails witnessFetch [7, 123]).map Prod.fst = [7, 123] := by
  have h := fetchPRDetails_isolates_failures witnessFetch [7, 123] (by decide)
  refine ⟨h.2.2.1 123 (by simp) rfl, h.2.2.2 7 (by simp) _ rfl, h.1⟩

/-! ### Division-by-zero guards (C9) and frame property (C4) -/

/-- C9: in both modes the merge-time average is guarded: with zero
merge-time samples, bounded mode stores `avgTimeToMerge = 0` and renders
the literal `N/A`, and a weekly table row renders the literal `0.0`; the
division by the sample count happens only under the `count > 0` guard
(visible in the definitions of `calculatePRMetrics` and
`rollingAvgTimeToMergeDisplay`). -/
theorem avgTimeToMerge_zero_guard :
    (∀ (prs : List PR) (prDetails : List (Nat × PRDetail)) (startDate endDate : Int),
      (calculatePRMetricsState prs prDetails startDate endDate).mergedCount = 0 →
      (calculatePRMetrics prs prDetails startDate endDate).avgTimeToMerge = 0 ∧
      avgTimeToMergeDisplay (calculatePRMetrics prs prDetails startDate endDate)
        = "N/A") ∧
    (∀ r : RollStats, r.mergedPRCount = 0 →
      rollingAvgTimeToMergeDisplay r = "0.0") := by
  constructor
  · intro prs prDetails startDate endDate h
    have havg : (calculatePRMetrics prs prDetails startDate endDate).avgTimeToMerge
        = 0 := by
      simp [calculatePRMetrics, h]
    exact ⟨havg, by simp [avgTimeToMergeDisplay, havg]⟩
  · intro r h
    simp [rollingAvgTimeToMergeDisplay, h]

/-- Witness for C9: the empty PR list yields zero merge-time samples, so
the bounded average is `0` rendered as `N/A`; a fresh weekly record
renders `0.0`. -/
theorem avgTimeToMerge_zero_guard_witness :
    (calculatePRMetrics [] [] 0 0).avgTimeToMerge = 0 ∧
    avgTimeToMergeDisplay (calculatePRMetrics [] [] 0 0) = "N/A" ∧
    rollingAvgTimeToMergeDisplay zeroRollStats = "0.0" := by
  have h := avgTimeToMerge_zero_guard
  have h1 := h.1 [] [] 0 0 rfl
  exact ⟨h1.1, h1.2, h.2 zeroRollStats rfl⟩

/-- C4: a PR whose created timestamp is outside `[startDate, endDate]`
contributes to no counter at all: removing it from the fetched list
leaves the whole accumulator state (all global counters, both time
accumulators, both sample counts, and the entire contributor map) and
the returned metrics unchanged. -/
theorem outOfRange_PR_no_effect (prDetails : List (Nat × PRDetail))
    (startDate endDate : Int) (l1 l2 : List PR) (pr : PR)
    (h : ¬ (startDate ≤ pr.created_at ∧ pr.created_at ≤ endDate)) :
    calculatePRMetricsState (l1 ++ pr :: l2) prDetails startDate endDate
      = calculatePRMetricsState (l1 ++ l2) prDetails startDate endDate ∧
    calculatePRMetrics (l1 ++ pr :: l2) prDetails startDate endDate
      = calculatePRMetrics (l1 ++ l2) prDetails startDate endDate := by
  have hstep : ∀ st, boundedStep prDetails startDate endDate st pr = st := by
    intro st; simp [boundedStep, h]
  have hstate : calculatePRMetricsState (l1 ++ pr :: l2) prDetails startDate endDate
      = calculatePRMetricsState (l1 ++ l2) prDetails startDate endDate := by
    unfold calculatePRMetricsState
    rw [List.foldl_append, List.foldl_append, List.foldl_cons, hstep]
  exact ⟨hstate, by unfold calculatePRMetrics; rw [hstate]⟩

/-- Sample PR for the C4 witness: created before the range start, merged
inside the range. -/
def prCreatedOutside : PR :=
  { number := 9, repoName := "r", author := "zoe", state := "closed",
    created_at := -3600000, merged_at := some 1800000,
    closed_at := some 1800000, updated_at := 1800000 }

/-- Witness for C4: a PR created before the range start (even though it
was merged inside the range) leaves the metrics of the empty list
unchanged. -/
theorem outOfRange_PR_no_effect_witness :
    calculatePRMetricsState [prCreatedOutside] [] 0 7200000
      = calculatePRMetricsState [] [] 0 7200000 ∧
    calculatePRMetrics [prCreatedOutside] [] 0 7200000
      = calculatePRMetrics [] [] 0 7200000 := by
  have h := outOfRange_PR_no_effect [] 0 7200000 [] [] prCreatedOutside
    (by decide)
  simpa using h

/-! ### The sum relation of the bounded counters (C5) -/

lemma boundedStep_sum_le (prDetails : List (Nat × PRDetail))
    (startDate endDate : Int) (st : BoundedState) (pr : PR)
    (h : st.mergedPRs + st.openPRs ≤ st.newPRs) :
    (boundedStep prDetails startDate endDate st pr).mergedPRs
      + (boundedStep prDetails startDate endDate st pr).openPRs
      ≤ (boundedStep prDetails startDate endDate st pr).newPRs := by
  unfold boundedStep
  split
  · by_cases hopen : pr.state = "open" <;> cases hm : pr.merged_at <;>
      simp [mergedInc, hopen, hm] <;> omega
  · exact h

lemma foldl_bounded_sum_le (prDetails : List (Nat × PRDetail))
    (startDate endDate : Int) :
    ∀ (l : List PR) (st : BoundedState),
      st.mergedPRs + st.openPRs ≤ st.newPRs →
      (l.foldl (boundedStep prDetails startDate endDate) st).mergedPRs
        + (l.foldl (boundedStep prDetails startDate endDate) st).openPRs
        ≤ (l.foldl (boundedStep prDetails startDate endDate) st).newPRs := by
  intro l
  induction l with
  | nil => intro st h; exact h
  | cons pr rest ih =>
    intro st h
    exact ih _ (boundedStep_sum_le prDetails startDate endDate st pr h)

/-- C5 counterexample to the claimed existence — its negation: no PR
set, detail map and date range makes the computed metrics violate
`mergedPRs + openPRs ≤ newPRs`, because `openPRs` and `mergedPRs` are
incremented only inside the created-in-range branch that also increments
`newPRs`, and at most one of the two per PR. -/
theorem bounded_sum_relation_holds_always :
    ¬ ∃ (prs : List PR) (prDetails : List (Nat × PRDetail))
        (startDate endDate : Int),
      (calculatePRMetrics prs prDetails startDate endDate).newPRs
        < (calculatePRMetrics prs prDetails startDate endDate).mergedPRs
          + (calculatePRMetrics prs prDetails startDate endDate).openPRs := by
  rintro ⟨prs, prDetails, startDate, endDate, hlt⟩
  have h := foldl_bounded_sum_le prDetails startDate endDate prs
    initialBoundedState (by simp [initialBoundedState])
  simp only [calculatePRMetrics, calculatePRMetricsState] at hlt
  omega

/-- C5 amended: in bounded-range mode the relation
`mergedPRs + openPRs ≤ newPRs` IS guaranteed for every input (both on
the loop accumulator and on the returned metrics): opens and merges are
counted only for PRs created inside the window. -/
theorem bounded_sum_relation_guaranteed (prs : List PR)
    (prDetails : List (Nat × PRDetail)) (startDate endDate : Int) :
    (calculatePRMetricsState prs prDetails startDate endDate).mergedPRs
      + (calculatePRMetricsState prs prDetails startDate endDate).openPRs
      ≤ (calculatePRMetricsState prs prDetails startDate endDate).newPRs ∧
    (calculatePRMetrics prs prDetails startDate endDate).mergedPRs
      + (calculatePRMetrics prs prDetails startDate endDate).openPRs
      ≤ (calculatePRMetrics prs prDetails startDate endDate).newPRs := by
  have h := foldl_bounded_sum_le prDetails startDate endDate prs
    initialBoundedState (by simp [initialBoundedState])
  exact ⟨h, by simpa [calculatePRMetrics, calculatePRMetricsState] using h⟩

/-! ### Bounded-mode newPRs counting and its partition by author (C1) -/

lemma updStats_newPRs (pr : PR) (d : Option PRDetail) (c : ContribStats) :
    (updStats pr d c).newPRs = c.newPRs + 1 := by
  cases d <;> by_cases h : pr.state = "open" <;> cases hm : pr.merged_at <;>
    simp [updStats, h, hm]

/-- Per-author count of `newPRs` recorded in a contributor map (0 when
the author has no entry). -/
def contribNew (m : List (String × ContribStats)) (a : String) : Nat :=
  match mapGet m a with
  | some c => c.newPRs
  | none => 0

lemma contribNew_updateAssoc (m : List (String × ContribStats)) (k a : String)
    (pr : PR) (d : Option PRDetail) :
    contribNew (updateAssoc m k zeroStats (updStats pr d)) a
      = contribNew m a + (if a = k then 1 else 0) := by
  unfold contribNew
  rw [mapGet_updateAssoc]
  by_cases h : a = k
  · subst h
    cases hm : mapGet m a <;> simp [hm, updStats_newPRs, zeroStats]
  · simp [h]

lemma boundedStep_contribNew (prDetails : List (Nat × PRDetail))
    (startDate endDate : Int) (st : BoundedState) (pr : PR) (a : String) :
    contribNew (boundedStep prDetails startDate endDate st pr).contributors a
      = contribNew st.contributors a +
        (if (startDate ≤ pr.created_at ∧ pr.created_at ≤ endDate) ∧ pr.author = a
         then 1 else 0) := by
  unfold boundedStep
  by_cases h : startDate ≤ pr.created_at ∧ pr.created_at ≤ endDate
  · simp only [h, if_true, and_true, true_and]
    rw [contribNew_updateAssoc]
    by_cases ha : a = pr.author
    · simp [ha]
    · simp [ha, fun hh : pr.author = a => ha hh.symm]
      exact fun hh => absurd hh.symm ha
  · simp [h]

lemma boundedStep_newPRs (prDetails : List (Nat × PRDetail))
    (startDate endDate : Int) (st : BoundedState) (pr : PR) :
    (boundedStep prDetails startDate endDate st pr).newPRs
      = st.newPRs +
        (if startDate ≤ pr.created_at ∧ pr.created_at ≤ endDate then 1 else 0) := by
  unfold boundedStep
  by_cases h : startDate ≤ pr.created_at ∧ pr.created_at ≤ endDate <;> simp [h]

lemma foldl_bounded_newPRs (prDetails : List (Nat × PRDetail))
    (startDate endDate : Int) :
    ∀ (l : List PR) (st : BoundedState),
      (l.foldl (boundedStep prDetails startDate endDate) st).newPRs
        = st.newPRs + l.countP
            (fun pr => decide (startDate ≤ pr.created_at ∧ pr.created_at ≤ endDate)) := by
  intro l
  induction l with
  | nil => intro st; simp
  | cons pr rest ih =>
    intro st
    rw [List.foldl_cons, ih, boundedStep_newPRs, List.countP_cons]
    by_cases h : startDate ≤ pr.created_at ∧ pr.created_at ≤ endDate <;>
      simp [h] <;> omega

lemma foldl_bounded_contribNew (prDetails : List (Nat × PRDetail))
    (startDate endDate : Int) (a : String) :
    ∀ (l : List PR) (st : BoundedState),
      contribNew (l.foldl (boundedStep prDetails startDate endDate) st).contributors a
        = contribNew st.contributors a + l.countP
            (fun pr => decide ((startDate ≤ pr.created_at ∧ pr.created_at ≤ endDate)
              ∧ pr.author = a)) := by
  intro l
  induction l with
  | nil => intro st; simp
  | cons pr rest ih =>
    intro st
    rw [List.foldl_cons, ih, boundedStep_contribNew, List.countP_cons]
    by_cases h : (startDate ≤ pr.created_at ∧ pr.created_at ≤ endDate) ∧ pr.author = a <;>
      simp [h] <;> omega

/-- Total of the per-contributor `newPRs` values of a contributor map. -/
def sumContribNew (m : List (String × ContribStats)) : Nat :=
  (m.map (fun p => p.2.newPRs)).sum

lemma boundedStep_sumContribNew (prDetails : List (Nat × PRDetail))
    (startDate endDate : Int) (st : BoundedState) (pr : PR) :
    sumContribNew (boundedStep prDetails startDate endDate st pr).contributors
      = sumContribNew st.contributors +
        (if startDate ≤ pr.created_at ∧ pr.created_at ≤ endDate then 1 else 0) := by
  unfold boundedStep
  by_cases h : startDate ≤ pr.created_at ∧ pr.created_at ≤ endDate
  · simp only [h, if_true]
    exact sum_updateAssoc st.contributors pr.author zeroStats _
      (fun p => p.newPRs) 1 (fun v => updStats_newPRs pr _ v) rfl
  · simp [h]

lemma foldl_bounded_sumContribNew (prDetails : List (Nat × PRDetail))
    (startDate endDate : Int) :
    ∀ (l : List PR) (st : BoundedState),
      sumContribNew (l.foldl (boundedStep prDetails startDate endDate) st).contributors
        = sumContribNew st.contributors + l.countP
            (fun pr => decide (startDate ≤ pr.created_at ∧ pr.created_at ≤ endDate)) := by
  intro l
  induction l with
  | nil => intro st; simp
  | cons pr rest ih =>
    intro st
    rw [List.foldl_cons, ih, boundedStep_sumContribNew, List.countP_cons]
    by_cases h : startDate ≤ pr.created_at ∧ pr.created_at ≤ endDate <;>
      simp [h] <;> omega

/-- C1: in bounded-range mode, the returned `newPRs` is exactly the
number of fetched PRs whose created timestamp lies in the inclusive
range `[startDate, endDate]`; each contributor's `newPRs` is exactly the
number of such PRs authored by that handle; and the per-contributor
values sum to the global total, so they partition it by author handle. -/
theorem calculatePRMetrics_newPRs_partition (prs : List PR)
    (prDetails : List (Nat × PRDetail)) (startDate endDate : Int) :
    (calculatePRMetrics prs prDetails startDate endDate).newPRs
      = prs.countP
          (fun pr => decide (startDate ≤ pr.created_at ∧ pr.created_at ≤ endDate)) ∧
    (∀ a : String,
      contribNew (calculatePRMetrics prs prDetails startDate endDate).contributors a
        = prs.countP
            (fun pr => decide ((startDate ≤ pr.created_at ∧ pr.created_at ≤ endDate)
              ∧ pr.author = a))) ∧
    sumContribNew (calculatePRMetrics prs prDetails startDate endDate).contributors
      = (calculatePRMetrics prs prDetails startDate endDate).newPRs := by
  refine ⟨?_, ?_, ?_⟩
  · have h := foldl_bounded_newPRs prDetails startDate endDate prs initialBoundedState
    simpa [calculatePRMetrics, calculatePRMetricsState, initialBoundedState] using h
  · intro a
    have h := foldl_bounded_contribNew prDetails startDate endDate a prs
      initialBoundedState
    simpa [calculatePRMetrics, calculatePRMetricsState, initialBoundedState,
      contribNew, mapGet_nil] using h
  · have h1 := foldl_bounded_sumContribNew prDetails startDate endDate prs
      initialBoundedState
    have h2 := foldl_bounded_newPRs prDetails startDate endDate prs initialBoundedState
    simp only [calculatePRMetrics, calculatePRMetricsState] at *
    simp [initialBoundedState, sumContribNew] at h1 h2 ⊢
    omega

/-! ### Bounded-mode per-contributor comment overwrite (C6) -/

lemma updStats_comments_some (pr : PR) (det : PRDetail) (c : ContribStats) :
    (updStats pr (some det) c).comments = det.totalComments := by
  by_cases h : pr.state = "open" <;> cases hm : pr.merged_at <;>
    simp [updStats, h, hm]

lemma updStats_comments_none (pr : PR) (c : ContribStats) :
    (updStats pr none c).comments = c.comments := by
  by_cases h : pr.state = "open" <;> cases hm : pr.merged_at <;>
    simp [updStats, h, hm]

/-- Per-author `comments` value recorded in a contributor map (0 when
the author has no entry, matching the freshly created record). -/
def contribComments (m : List (String × ContribStats)) (a : String) : Nat :=
  match mapGet m a with
  | some c => c.comments
  | none => 0

lemma contribComments_updateAssoc (m : List (String × ContribStats))
    (k a : String) (pr : PR) (d : Option PRDetail) :
    contribComments (updateAssoc m k zeroStats (updStats pr d)) a
      = if a = k ∧ d.isSome = true
        then ((d.getD zeroDetail).totalComments)
        else contribComments m a := by
  unfold contribComments
  rw [mapGet_updateAssoc]
  by_cases h : a = k
  · subst h
    cases d with
    | some det =>
      cases hm : mapGet m a <;> simp [hm, updStats_comments_some]
    | none =>
      cases hm : mapGet m a <;> simp [hm, updStats_comments_none, zeroStats]
  · simp [h]

lemma boundedStep_contribComments (prDetails : List (Nat × PRDetail))
    (startDate endDate : Int) (st : BoundedState) (pr : PR) (a : String) :
    contribComments (boundedStep prDetails startDate endDate st pr).contributors a
      = if (startDate ≤ pr.created_at ∧ pr.created_at ≤ endDate)
           ∧ pr.author = a ∧ (mapGet prDetails pr.number).isSome = true
        then ((mapGet prDetails pr.number).getD zeroDetail).totalComments
        else contribComments st.contributors a := by
  unfold boundedStep
  by_cases h : startDate ≤ pr.created_at ∧ pr.created_at ≤ endDate
  · simp only [h, if_true, true_and]
    rw [contribComments_updateAssoc]
    by_cases ha : a = pr.author
    · subst ha
      by_cases hd : (mapGet prDetails pr.number).isSome = true <;> simp [hd]
    · rw [if_neg (fun hh => ha hh.1), if_neg (fun hh => ha hh.1.symm)]
  · simp [h]

lemma foldl_bounded_contribComments (prDetails : List (Nat × PRDetail))
    (startDate endDate : Int) (a : String) :
    ∀ (l : List PR) (st : BoundedState),
      contribComments
          (l.foldl (boundedStep prDetails startDate endDate) st).contributors a
        = ((l.filter (fun pr =>
              decide ((startDate ≤ pr.created_at ∧ pr.created_at ≤ endDate)
                ∧ pr.author = a ∧ (mapGet prDetails pr.number).isSome = true))).map
            (fun pr => ((mapGet prDetails pr.number).getD zeroDetail).totalComments)
          ).getLastD (contribComments st.contributors a) := by
  intro l
  induction l with
  | nil => intro st; simp
  | cons pr rest ih =>
    intro st
    rw [List.foldl_cons, ih]
    by_cases h : (startDate ≤ pr.created_at ∧ pr.created_at ≤ endDate)
        ∧ pr.author = a ∧ (mapGet prDetails pr.number).isSome = true
    · rw [List.filter_cons_of_pos (by simpa using h), List.map_cons,
        List.getLastD_cons, boundedStep_contribComments]
      simp [h]
    · rw [List.filter_cons_of_neg (by simpa using h), boundedStep_contribComments]
      simp [h]

/-- C6: after the bounded-range pass, each contributor's `comments`
field equals the `totalComments` of the LAST examined in-window PR of
that contributor that had a detail record (and 0 when there is none) —
the detail's `totalComments` is assigned, not accumulated, so earlier
PRs' comment counts are overwritten rather than summed. -/
theorem calculatePRMetrics_comments_last_examined (prs : List PR)
    (prDetails : List (Nat × PRDetail)) (startDate endDate : Int) (a : String) :
    contribComments
        (calculatePRMetrics prs prDetails startDate endDate).contributors a
      = ((prs.filter (fun pr =>
            decide ((startDate ≤ pr.created_at ∧ pr.created_at ≤ endDate)
              ∧ pr.author = a ∧ (mapGet prDetails pr.number).isSome = true))).map
          (fun pr => ((mapGet prDetails pr.number).getD zeroDetail).totalComments)
        ).getLastD 0 := by
  have h := foldl_bounded_contribComments prDetails startDate endDate a prs
    initialBoundedState
  simpa [calculatePRMetrics, calculatePRMetricsState, initialBoundedState,
    contribComments, mapGet_nil] using h

/-! ### Rolling-week classification (C3), invariants (C7, C10) -/

/-- The pattern `o && moment(o).isAfter(w)` of src/index.js lines 285
and 290: an optional timestamp is present and strictly after the window
start. -/
def optAfter (lw : Int) (o : Option Int) : Prop := ∃ t, o = some t ∧ lw < t

instance (lw : Int) (o : Option Int) : Decidable (optAfter lw o) :=
  match o with
  | some t =>
    if h : lw < t then .isTrue ⟨t, rfl, h⟩
    else .isFalse (by rintro ⟨t', ht', hlt'⟩; injection ht' with hh; subst hh; exact h hlt')
  | none => .isFalse (by rintro ⟨t', ht', _⟩; cases ht')

@[simp] lemma optAfter_some (lw t : Int) : optAfter lw (some t) ↔ lw < t := by
  constructor
  · rintro ⟨t', ht', hlt'⟩; injection ht' with hh; subst hh; exact hlt'
  · intro h; exact ⟨t, rfl, h⟩

@[simp] lemma optAfter_none (lw : Int) : ¬ optAfter lw none := by
  rintro ⟨t', ht', _⟩; cases ht'

/-- First branch of the rolling classification (src/index.js line 283):
the PR is currently open — no window condition. -/
def openCond (pr : PR) : Prop := pr.state = "open"

instance (pr : PR) : Decidable (openCond pr) := by unfold openCond; infer_instance

/-- Second branch (src/index.js line 285): not open, and a merged
timestamp exists and is after the window start. -/
def mergedThisWeekCond (lw : Int) (pr : PR) : Prop :=
  ¬ openCond pr ∧ optAfter lw pr.merged_at

instance (lw : Int) (pr : PR) : Decidable (mergedThisWeekCond lw pr) := by
  unfold mergedThisWeekCond; infer_instance

/-- Third branch (src/index.js line 290): not open, not merged-this-week,
a closed timestamp exists after the window start, and no merged
timestamp exists. -/
def closedThisWeekCond (lw : Int) (pr : PR) : Prop :=
  ¬ openCond pr ∧ ¬ optAfter lw pr.merged_at ∧
    optAfter lw pr.closed_at ∧ pr.merged_at = none

instance (lw : Int) (pr : PR) : Decidable (closedThisWeekCond lw pr) := by
  unfold closedThisWeekCond; infer_instance

/-- Residual class: the PR falls in none of the three branches. -/
def notCountedCond (lw : Int) (pr : PR) : Prop :=
  ¬ openCond pr ∧ ¬ optAfter lw pr.merged_at ∧
    ¬ (optAfter lw pr.closed_at ∧ pr.merged_at = none)

instance (lw : Int) (pr : PR) : Decidable (notCountedCond lw pr) := by
  unfold notCountedCond; infer_instance

/-- The author's record in a rolling-week contributor map, or a fresh
zero record when absent (the ensure-entry step of src/index.js
lines 263-273). -/
def getRoll (m : List (String × RollStats)) (a : String) : RollStats :=
  (mapGet m a).getD zeroRollStats

lemma updRollStats_newPRsThisWeek (lw : Int) (d : Option PRDetail) (pr : PR)
    (r : RollStats) :
    (updRollStats lw d pr r).newPRsThisWeek
      = r.newPRsThisWeek + (if lw < pr.created_at then 1 else 0) := by
  unfold updRollStats
  cases d <;> by_cases h1 : lw < pr.created_at <;>
    by_cases h2 : pr.state = "open" <;>
    rcases hm : pr.merged_at with _ | mt <;>
    rcases hc : pr.closed_at with _ | ct <;>
    simp [h1, h2, hm, hc] <;> split_ifs <;> simp

lemma updRollStats_openPRs (lw : Int) (d : Option PRDetail) (pr : PR)
    (r : RollStats) :
    (updRollStats lw d pr r).openPRs
      = r.openPRs + (if openCond pr then 1 else 0) := by
  unfold updRollStats openCond
  cases d <;> by_cases h1 : lw < pr.created_at <;>
    by_cases h2 : pr.state = "open" <;>
    rcases hm : pr.merged_at with _ | mt <;>
    rcases hc : pr.closed_at with _ | ct <;>
    simp [h1, h2, hm, hc] <;> split_ifs <;> simp

lemma updRollStats_mergedPRsThisWeek (lw : Int) (d : Option PRDetail) (pr : PR)
    (r : RollStats) :
    (updRollStats lw d pr r).mergedPRsThisWeek
      = r.mergedPRsThisWeek + (if mergedThisWeekCond lw pr then 1 else 0) := by
  obtain ⟨num, repo, author, stt, created, merged, closed, updated⟩ := pr
  unfold updRollStats mergedThisWeekCond openCond
  cases d <;> rcases merged with _ | mt <;> rcases closed with _ | ct <;>
    by_cases h1 : lw < created <;> by_cases h2 : stt = "open" <;>
    simp [h1, h2] <;> split_ifs <;> simp_all

lemma updRollStats_mergedPRCount (lw : Int) (d : Option PRDetail) (pr : PR)
    (r : RollStats) :
    (updRollStats lw d pr r).mergedPRCount
      = r.mergedPRCount + (if mergedThisWeekCond lw pr then 1 else 0) := by
  obtain ⟨num, repo, author, stt, created, merged, closed, updated⟩ := pr
  unfold updRollStats mergedThisWeekCond openCond
  cases d <;> rcases merged with _ | mt <;> rcases closed with _ | ct <;>
    by_cases h1 : lw < created <;> by_cases h2 : stt = "open" <;>
    simp [h1, h2] <;> split_ifs <;> simp_all

lemma updRollStats_closedPRsThisWeek (lw : Int) (d : Option PRDetail) (pr : PR)
    (r : RollStats) :
    (updRollStats lw d pr r).closedPRsThisWeek
      = r.closedPRsThisWeek + (if closedThisWeekCond lw pr then 1 else 0) := by
  obtain ⟨num, repo, author, stt, created, merged, closed, updated⟩ := pr
  unfold updRollStats closedThisWeekCond openCond
  cases d <;> rcases merged with _ | mt <;> rcases closed with _ | ct <;>
    by_cases h1 : lw < created <;> by_cases h2 : stt = "open" <;>
    simp [h1, h2] <;> split_ifs <;> simp_all

lemma updRollStats_totalMergeTime_merged (lw : Int) (d : Option PRDetail)
    (pr : PR) (r : RollStats) (mt : Int) (h2 : ¬ pr.state = "open")
    (hm : pr.merged_at = some mt) (h3 : lw < mt) :
    (updRollStats lw d pr r).totalMergeTime
      = r.totalMergeTime + ((truncHours (mt - pr.created_at) : Int) : ℚ) := by
  obtain ⟨num, repo, author, stt, created, merged, closed, updated⟩ := pr
  simp only at h2 hm ⊢
  subst hm
  unfold updRollStats
  cases d <;> by_cases h1 : lw < created <;> simp [h1, h2, h3]

lemma updRollStats_totalMergeTime_not_merged (lw : Int) (d : Option PRDetail)
    (pr : PR) (r : RollStats) (h : ¬ mergedThisWeekCond lw pr) :
    (updRollStats lw d pr r).totalMergeTime = r.totalMergeTime := by
  obtain ⟨num, repo, author, stt, created, merged, closed, updated⟩ := pr
  unfold mergedThisWeekCond openCond at h
  unfold updRollStats
  cases d <;> rcases merged with _ | mt <;> rcases closed with _ | ct <;>
    by_cases h1 : lw < created <;> by_cases h2 : stt = "open" <;>
    simp [h1, h2] at h ⊢ <;> split_ifs with h3 <;> simp_all <;> omega

lemma getRoll_rollingStep (lw : Int)
    (db : String → Option (List (Nat × PRDetail)))
    (m : List (String × RollStats)) (pr : PR) :
    getRoll (rollingStep lw db m pr) pr.author
      = updRollStats lw
          (match db pr.repoName with
           | some repoDetails => mapGet repoDetails pr.number
           | none => none) pr (getRoll m pr.author) := by
  unfold getRoll rollingStep
  rw [mapGet_updateAssoc]
  simp

/-- C3: in rolling-week mode every PR falls in exactly one of the four
classes — open (state = open, no window condition), merged-this-week
(not open, merged timestamp present and after the window start),
closed-this-week (not open, not merged-this-week, closed timestamp after
the window start and no merged timestamp), or none of the three — and
one step of the aggregation increments the author's `openPRs`,
`mergedPRsThisWeek` (together with its merge-time sample count
`mergedPRCount`), and `closedPRsThisWeek` exactly according to that
class. -/
theorem rolling_classification_exclusive (lw : Int)
    (db : String → Option (List (Nat × PRDetail)))
    (m : List (String × RollStats)) (pr : PR) :
    ((openCond pr ∨ mergedThisWeekCond lw pr ∨ closedThisWeekCond lw pr ∨
        notCountedCond lw pr) ∧
      ¬ (openCond pr ∧ mergedThisWeekCond lw pr) ∧
      ¬ (openCond pr ∧ closedThisWeekCond lw pr) ∧
      ¬ (openCond pr ∧ notCountedCond lw pr) ∧
      ¬ (mergedThisWeekCond lw pr ∧ closedThisWeekCond lw pr) ∧
      ¬ (mergedThisWeekCond lw pr ∧ notCountedCond lw pr) ∧
      ¬ (closedThisWeekCond lw pr ∧ notCountedCond lw pr)) ∧
    (getRoll (rollingStep lw db m pr) pr.author).openPRs
      = (getRoll m pr.author).openPRs + (if openCond pr then 1 else 0) ∧
    (getRoll (rollingStep lw db m pr) pr.author).mergedPRsThisWeek
      = (getRoll m pr.author).mergedPRsThisWeek
        + (if mergedThisWeekCond lw pr then 1 else 0) ∧
    (getRoll (rollingStep lw db m pr) pr.author).mergedPRCount
      = (getRoll m pr.author).mergedPRCount
        + (if mergedThisWeekCond lw pr then 1 else 0) ∧
    (getRoll (rollingStep lw db m pr) pr.author).closedPRsThisWeek
      = (getRoll m pr.author).closedPRsThisWeek
        + (if closedThisWeekCond lw pr then 1 else 0) := by
  refine ⟨?_, ?_, ?_, ?_, ?_⟩
  · unfold openCond mergedThisWeekCond closedThisWeekCond notCountedCond
    tauto
  · rw [getRoll_rollingStep, updRollStats_openPRs]
  · rw [getRoll_rollingStep, updRollStats_mergedPRsThisWeek]
  · rw [getRoll_rollingStep, updRollStats_mergedPRCount]
  · rw [getRoll_rollingStep, updRollStats_closedPRsThisWeek]

/-- Sample open PR for the C3 witness. -/
def wprOpen : PR :=
  { number := 2, repoName := "r", author := "bob", state := "open",
    created_at := 100, merged_at := none, closed_at := none, updated_at := 100 }

/-- Witness for C3 at a concrete open PR: it is classified open and one
aggregation step increments exactly the author's `openPRs`. -/
theorem rolling_classification_exclusive_witness :
    (openCond wprOpen ∨ mergedThisWeekCond 0 wprOpen ∨
      closedThisWeekCond 0 wprOpen ∨ notCountedCond 0 wprOpen) ∧
    (getRoll (rollingStep 0 (fun _ => none) [] wprOpen) wprOpen.author).openPRs
      = (getRoll [] wprOpen.author).openPRs
        + (if openCond wprOpen then 1 else 0) ∧
    (getRoll (rollingStep 0 (fun _ => none) [] wprOpen) wprOpen.author).mergedPRsThisWeek
      = (getRoll [] wprOpen.author).mergedPRsThisWeek
        + (if mergedThisWeekCond 0 wprOpen then 1 else 0) := by
  have h := rolling_classification_exclusive 0 (fun _ => none) [] wprOpen
  exact ⟨h.1.1, h.2.1, h.2.2.1⟩

lemma mapGet_eq_some_mem {κ β : Type} [DecidableEq κ] {m : List (κ × β)}
    {k : κ} {v : β} (h : mapGet m k = some v) : (k, v) ∈ m := by
  unfold mapGet at h
  rcases ho : m.find? (fun p => decide (p.1 = k)) with _ | q
  · rw [ho] at h; cases h
  · rw [ho] at h
    have hq := List.mem_of_find?_eq_some ho
    have hk := List.find?_some ho
    obtain ⟨q1, q2⟩ := q
    simp at hk h
    subst hk
    subst h
    exact hq

lemma updRollStats_preserves_mergedCount_eq (lw : Int) (d : Option PRDetail)
    (pr : PR) (r : RollStats) (h : r.mergedPRCount = r.mergedPRsThisWeek) :
    (updRollStats lw d pr r).mergedPRCount
      = (updRollStats lw d pr r).mergedPRsThisWeek := by
  rw [updRollStats_mergedPRCount, updRollStats_mergedPRsThisWeek, h]

/-- C7: the rolling-week aggregation preserves, at every point (any
starting map satisfying it and any PR list), the invariant that every
contributor's `mergedPRCount` equals `mergedPRsThisWeek`: the merged
branch increments both together, and no other branch touches either, so
every weekly merge contributes exactly one merge-time sample. -/
theorem rolling_mergeTime_sample_count_invariant (lw : Int)
    (db : String → Option (List (Nat × PRDetail))) (l : List PR)
    (m : List (String × RollStats))
    (hm : ∀ p ∈ m, p.2.mergedPRCount = p.2.mergedPRsThisWeek) :
    ∀ p ∈ l.foldl (rollingStep lw db) m,
      p.2.mergedPRCount = p.2.mergedPRsThisWeek := by
  induction l generalizing m with
  | nil => simpa using hm
  | cons pr rest ih =>
    intro p hp
    rw [List.foldl_cons] at hp
    refine ih (rollingStep lw db m pr) ?_ p hp
    intro q hq
    simp only [rollingStep] at hq
    exact mem_updateAssoc m pr.author zeroRollStats _ hm
      (updRollStats_preserves_mergedCount_eq _ _ _ zeroRollStats rfl)
      (fun v hv => updRollStats_preserves_mergedCount_eq _ _ _ v hv) q hq

/-- Sample merged-this-week PR shared by the C7 and C10 witnesses:
created at the epoch, merged two hours later. -/
def wprMerged : PR :=
  { number := 1, repoName := "r", author := "alice", state := "closed",
    created_at := 0, merged_at := some 7200000, closed_at := some 7200000,
    updated_at := 7200000 }

/-- Witness for C7: after aggregating one concrete merged PR from the
empty map, the author's `mergedPRCount` equals `mergedPRsThisWeek`. -/
theorem rolling_mergeTime_sample_count_invariant_witness :
    (getRoll (List.foldl (rollingStep (-1) (fun _ => none)) [] [wprMerged])
        "alice").mergedPRCount
      = (getRoll (List.foldl (rollingStep (-1) (fun _ => none)) [] [wprMerged])
        "alice").mergedPRsThisWeek := by
  have h := rolling_mergeTime_sample_count_invariant (-1) (fun _ => none)
    [wprMerged] [] (by intro p hp; simp at hp)
  rcases hv : mapGet (List.foldl (rollingStep (-1) (fun _ => none)) [] [wprMerged])
      "alice" with _ | v
  · simp only [getRoll]
    rw [hv]
    rfl
  · have hm := h ("alice", v) (mapGet_eq_some_mem hv)
    simp only [getRoll]
    rw [hv]
    simpa using hm

lemma updRollStats_totalMergeTime_int (lw : Int) (d : Option PRDetail)
    (pr : PR) (r : RollStats) (h : ∃ z : ℤ, r.totalMergeTime = (z : ℚ)) :
    ∃ z : ℤ, (updRollStats lw d pr r).totalMergeTime = (z : ℚ) := by
  obtain ⟨z, hz⟩ := h
  by_cases hc : mergedThisWeekCond lw pr
  · obtain ⟨ho, mt, hm, h3⟩ := hc
    rw [updRollStats_totalMergeTime_merged lw d pr r mt ho hm h3, hz]
    exact ⟨z + truncHours (mt - pr.created_at), by push_cast; ring⟩
  · rw [updRollStats_totalMergeTime_not_merged lw d pr r hc, hz]
    exact ⟨z, rfl⟩

/-- Sample PR merged 90 minutes after creation, for the C10 bounded-mode
contrast: its creation-to-merge duration is 1.5 hours. -/
def prMergedFractional : PR :=
  { number := 3, repoName := "r", author := "carol", state := "closed",
    created_at := 0, merged_at := some 5400000, closed_at := some 5400000,
    updated_at := 5400000 }

lemma prMergedFractional_total :
    (calculatePRMetricsState [prMergedFractional] [] 0 7200000).totalMergeTime
      = 3 / 2 := by
  have h1 : (calculatePRMetricsState [prMergedFractional] [] 0 7200000).totalMergeTime
      = initialBoundedState.totalMergeTime + mergedTimeInc prMergedFractional := by
    show (boundedStep [] 0 7200000 initialBoundedState prMergedFractional).totalMergeTime
        = _
    rw [boundedStep, if_pos (by decide)]
  rw [h1, mergedTimeInc, if_neg (by decide)]
  show initialBoundedState.totalMergeTime + fracHours (5400000 - 0) = 3 / 2
  rw [initialBoundedState, fracHours]
  norm_num

/-- C10: in rolling-week mode each per-PR merge time added to a
contributor's `totalMergeTime` is the whole-hour merged-minus-created
difference truncated toward zero (`truncHours`, an integer); hence from
any integral starting map every contributor's `totalMergeTime` stays an
integer — while bounded mode accumulates fractional hours, as the
concrete 90-minute PR shows (its bounded merge-time total is 3/2, not an
integer). -/
theorem rolling_totalMergeTime_truncated_integral :
    (∀ (lw : Int) (d : Option PRDetail) (pr : PR) (r : RollStats) (mt : Int),
      ¬ pr.state = "open" → pr.merged_at = some mt → lw < mt →
      (updRollStats lw d pr r).totalMergeTime
        = r.totalMergeTime + ((truncHours (mt - pr.created_at) : Int) : ℚ)) ∧
    (∀ (lw : Int) (db : String → Option (List (Nat × PRDetail))) (l : List PR)
        (m : List (String × RollStats)),
      (∀ p ∈ m, ∃ z : ℤ, p.2.totalMergeTime = (z : ℚ)) →
      ∀ p ∈ l.foldl (rollingStep lw db) m,
        ∃ z : ℤ, p.2.totalMergeTime = (z : ℚ)) ∧
    ((calculatePRMetricsState [prMergedFractional] [] 0 7200000).totalMergeTime
        = 3 / 2 ∧
      ∀ z : ℤ,
        (calculatePRMetricsState [prMergedFractional] [] 0 7200000).totalMergeTime
          ≠ (z : ℚ)) := by
  refine ⟨?_, ?_, ?_, ?_⟩
  · intro lw d pr r mt h2 hm h3
    exact updRollStats_totalMergeTime_merged lw d pr r mt h2 hm h3
  · intro lw db l
    induction l with
    | nil => intro m hm; simpa using hm
    | cons pr rest ih =>
      intro m hm p hp
      rw [List.foldl_cons] at hp
      refine ih (rollingStep lw db m pr) ?_ p hp
      intro q hq
      simp only [rollingStep] at hq
      exact mem_updateAssoc m pr.author zeroRollStats _ hm
        (updRollStats_totalMergeTime_int _ _ _ zeroRollStats
          ⟨0, by simp [zeroRollStats]⟩)
        (fun v hv => updRollStats_totalMergeTime_int _ _ _ v hv) q hq
  · exact prMergedFractional_total
  · intro z hz
    rw [prMergedFractional_total] at hz
    have h3 : (3 : ℚ) = 2 * (z : ℚ) := by
      field_simp at hz
      linarith
    have h3' : (3 : ℤ) = 2 * z := by exact_mod_cast h3
    omega

/-- Witness for C10: the concrete two-hour merged PR adds exactly the
truncated whole-hour difference, and the fold from an integral map keeps
`totalMergeTime` integral. -/
theorem rolling_totalMergeTime_truncated_integral_witness :
    (updRollStats (-1) none wprMerged zeroRollStats).totalMergeTime
      = zeroRollStats.totalMergeTime
        + ((truncHours (7200000 - wprMerged.created_at) : Int) : ℚ) ∧
    (∃ z : ℤ, zeroRollStats.totalMergeTime = (z : ℚ)) := by
  have h := rolling_totalMergeTime_truncated_integral
  refine ⟨h.1 (-1) none wprMerged zeroRollStats 7200000 (by decide) rfl (by decide), ?_⟩
  exact h.2.1 (-1) (fun _ => none) [] [("alice", zeroRollStats)]
    (by rintro p hp; simp at hp; subst hp; exact ⟨0, by simp [zeroRollStats]⟩)
    ("alice", zeroRollStats) (by simp)

/-! ### Rolling-week contributor ranking (C2) -/

lemma rollLE_iff (a b : String × RollStats) :
    rollLE a b = true ↔ rollKeyGE a.2 b.2 := by
  unfold rollLE rollCmp rollKeyGE
  by_cases h1 : a.2.mergedPRsThisWeek = b.2.mergedPRsThisWeek <;>
    by_cases h2 : a.2.newPRsThisWeek = b.2.newPRsThisWeek <;>
    simp [h1, h2] <;> omega

lemma rollCmp_neg (a b : RollStats) : rollCmp b a = - rollCmp a b := by
  unfold rollCmp
  by_cases h1 : a.mergedPRsThisWeek = b.mergedPRsThisWeek
  · by_cases h2 : a.newPRsThisWeek = b.newPRsThisWeek
    · simp [h1, h2]
    · have h2' : ¬ b.newPRsThisWeek = a.newPRsThisWeek := fun hh => h2 hh.symm
      simp [h1, h2, h2']
      try omega
  · have h1' : ¬ b.mergedPRsThisWeek = a.mergedPRsThisWeek := fun hh => h1 hh.symm
    simp [h1, h1']
    try omega

lemma rollLE_trans (a b c : String × RollStats) :
    rollLE a b → rollLE b c → rollLE a c := by
  intro hab hbc
  rw [rollLE_iff] at hab hbc ⊢
  unfold rollKeyGE at hab hbc ⊢
  omega

lemma rollLE_total (a b : String × RollStats) : rollLE a b || rollLE b a := by
  rw [Bool.or_eq_true]
  simp only [rollLE_iff]
  unfold rollKeyGE
  omega

/-- C2: the rolling-week contributor ranking is a permutation of the
aggregated map that is sorted by descending `mergedPRsThisWeek`, ties by
descending `newPRsThisWeek`, remaining ties by descending `openPRs`
(`rollKeyGE` holds between every earlier and every later row);
contributors fully tied on all three keys keep their original relative
order (the sort is stable); and in particular, of two rows with equal
`mergedPRsThisWeek`, the earlier one has at least the later one's
`newPRsThisWeek`. -/
theorem sortContributors_ranking (l : List (String × RollStats)) :
    (sortContributors l).Perm l ∧
    (sortContributors l).Pairwise (fun a b => rollKeyGE a.2 b.2) ∧
    (∀ x y : String × RollStats, [x, y].Sublist l → rollCmp x.2 y.2 = 0 →
      [x, y].Sublist (sortContributors l)) ∧
    (∀ x y : String × RollStats, [x, y].Sublist (sortContributors l) →
      x.2.mergedPRsThisWeek = y.2.mergedPRsThisWeek →
      y.2.newPRsThisWeek ≤ x.2.newPRsThisWeek) := by
  have hpair : (sortContributors l).Pairwise (fun a b => rollLE a b = true) :=
    List.sorted_mergeSort rollLE_trans rollLE_total l
  have hkey : (sortContributors l).Pairwise (fun a b => rollKeyGE a.2 b.2) :=
    hpair.imp (fun h => (rollLE_iff _ _).1 h)
  refine ⟨List.mergeSort_perm l rollLE, hkey, ?_, ?_⟩
  · intro x y hsub hcmp
    have hxy : rollLE x y = true := by
      unfold rollLE
      rw [hcmp]
      decide
    have hyx : rollLE y x = true := by
      unfold rollLE
      rw [rollCmp_neg, hcmp]
      decide
    have hcpair : [x, y].Pairwise (fun a b => rollLE a b = true) := by
      constructor
      · intro z hz
        simp at hz
        subst hz
        exact hxy
      · simp
    exact List.sublist_mergeSort rollLE_trans rollLE_total hcpair hsub
  · intro x y hsub hmeq
    have hp : [x, y].Pairwise (fun a b => rollKeyGE a.2 b.2) :=
      List.Pairwise.sublist hsub hkey
    have hrel := (List.pairwise_cons.mp hp).1 y (by simp)
    unfold rollKeyGE at hrel
    omega

/-- C2 witness rows: bob and alice tie on merged PRs (3) with new PRs 5
vs 2, carol has merged 1 and new 9, dave is fully tied with alice. -/
def wRollAlice : String × RollStats :=
  ("alice", { newPRsThisWeek := 2, mergedPRsThisWeek := 3, openPRs := 0,
              closedPRsThisWeek := 0, totalComments := 0, mergedPRCount := 3,
              totalMergeTime := 0 })

/-- C2 witness row with the larger tied `newPRsThisWeek`. -/
def wRollBob : String × RollStats :=
  ("bob", { newPRsThisWeek := 5, mergedPRsThisWeek := 3, openPRs := 0,
            closedPRsThisWeek := 0, totalComments := 0, mergedPRCount := 3,
            totalMergeTime := 0 })

/-- C2 witness row with fewer merged PRs but the most new PRs. -/
def wRollCarol : String × RollStats :=
  ("carol", { newPRsThisWeek := 9, mergedPRsThisWeek := 1, openPRs := 0,
              closedPRsThisWeek := 0, totalComments := 0, mergedPRCount := 1,
              totalMergeTime := 0 })

/-- C2 witness row fully tied with alice on all three sort keys. -/
def wRollDave : String × RollStats :=
  ("dave", { newPRsThisWeek := 2, mergedPRsThisWeek := 3, openPRs := 0,
             closedPRsThisWeek := 0, totalComments := 0, mergedPRCount := 3,
             totalMergeTime := 0 })

/-- Witness for C2 at the spec's example: the fully tied pair
alice/dave keeps its input order in the ranked output, and of the tied
pair bob/alice (equal merged PRs), bob — who ranks first — has at least
alice's new-PR count. -/
theorem sortContributors_ranking_witness :
    [wRollAlice, wRollDave].Sublist
      (sortContributors [wRollAlice, wRollBob, wRollCarol, wRollDave]) ∧
    wRollDave.2.newPRsThisWeek ≤ wRollAlice.2.newPRsThisWeek := by
  have h := sortContributors_ranking [wRollAlice, wRollBob, wRollCarol, wRollDave]
  have hsub := h.2.2.1 wRollAlice wRollDave (by decide) (by decide)
  exact ⟨hsub, h.2.2.2 wRollAlice wRollDave hsub (by decide)⟩
